import Mathlib

/-!
# Verification of the native-language-cnn training script

A shallow embedding of `src/train.py` (a PyTorch training script for a
convolutional native-language classifier) together with proofs about the
claims of its specification.

Conventions of the embedding:

* Token indices are natural numbers (the feature files hold integer indices
  written as text, which `np.array(..., dtype=np.int64)` parses).
* A file of the train directory is a `List (List Nat)`: its list of lines,
  each line its list of tokens (`ln.split()`).
* The column `L1` of the label CSV is a `List α` for a linearly ordered `α`
  (Python sorts the strings lexicographically; only the order is relevant).
* Fallible Python operations (out-of-range indexing, unbound locals,
  iterating a non-iterable) are modelled with `Option` / `Except PyErr`.
* The external collaborators that the spec declares out of scope (the CNN
  forward pass, the autograd engine, `f1_score`) are abstracted as an
  `Oracle`; the shuffles performed by `train_test_split` and `DataLoader`
  enter as explicit permutation parameters.
-/

namespace NLCNN

/-- Python exceptions that the modelled code can raise. -/
inductive PyErr
  | ioError      -- failure to open / read / unpickle an input
  | indexError   -- `label[i]` with `i` out of range
  | nameError    -- reading a local (`loss`) that was never bound
  | typeError    -- e.g. iterating a bound method
  deriving DecidableEq, Repr

/-- One padded row of `read_data` (`line=True`):
`tokens[:max_length] + pad * (max_length - len(tokens))` with
`pad = [vocab_size]` (train.py lines 33 and 40).  Python's
`list * negative` is the empty list, matching truncated `Nat` subtraction. -/
def padLine (max_length vocab_size : Nat) (tokens : List Nat) : List Nat :=
  tokens.take max_length ++ List.replicate (max_length - tokens.length) vocab_size

/-- `lang_list = sorted(list(set(lang)))` (train.py line 24): the sorted
list of the distinct `L1` values (`set` removes duplicates, `sorted` sorts). -/
def lang_list {α : Type} [LinearOrder α] (lang : List α) : List α :=
  (lang.dedup).insertionSort (· ≤ ·)

/-- `lang_dict = {i: l for (i, l) in enumerate(lang_list)}` (train.py
line 27), as the partial map sending an index to the entry of `lang_list`
there. -/
def lang_dict {α : Type} [LinearOrder α] (lang : List α) (i : Nat) : Option α :=
  (lang_list lang)[i]?

/-- `lang_rev_dict = {l: i for (i, l) in lang_dict.items()}` (train.py
line 28).  The values of `lang_dict` are distinct, so the reverse map sends
an entry of `lang_list` to its (unique) position. -/
def lang_rev_dict {α : Type} [LinearOrder α] (lang : List α) (l : α) : Nat :=
  (lang_list lang).indexOf l

/-- `label = [lang_rev_dict[la] for la in lang]` (train.py line 29): the
numeric label of each CSV row. -/
def label {α : Type} [LinearOrder α] (lang : List α) : List Nat :=
  lang.map (lang_rev_dict lang)

/-- The `samples` list built by the `line=True` branch of the loop of
`read_data` (train.py lines 35-41): one padded row per line of each file,
files in listing order. -/
def samples (max_length vocab_size : Nat) : List (List (List Nat)) → List (List Nat)
  | [] => []
  | f :: fs => f.map (padLine max_length vocab_size) ++ samples max_length vocab_size fs

/-- The `label_line` list built by the `line=True` branch (train.py
line 41): `label_line += [label[i]] * len(lines)` for the `i`-th file.
`label[i]` is evaluated for every file, so a file index beyond the end of
`label` raises `IndexError`, modelled as `none`. -/
def label_line (lab : List Nat) : Nat → List (List (List Nat)) → Option (List Nat)
  | _, [] => some []
  | i, f :: fs =>
    match lab[i]? with
    | none => none
    | some la => (label_line lab (i + 1) fs).map (fun rest => List.replicate f.length la ++ rest)

/-- `read_data` with `line=True` (train.py lines 22-50): returns the matrix
of padded rows, the per-line numeric labels, and the sorted language list
(which determines `lang_dict` via `lang_dict lang i = (lang_list lang)[i]?`).
`file_dir` is the listing of the train directory, `label_file` the `L1`
column of the CSV. -/
def read_data {α : Type} [LinearOrder α] (file_dir : List (List (List Nat)))
    (label_file : List α) (max_length vocab_size : Nat) :
    Option (List (List Nat) × List Nat × List α) :=
  (label_line (label label_file) 0 file_dir).map fun lab =>
    (samples max_length vocab_size file_dir, lab, lang_list label_file)

/-! ## The training loop (train.py lines 53-160)

The spec declares the CNN forward pass, the autograd engine and the metrics
library out of scope ("consumed as black boxes ... called through stable,
well-documented interfaces"); they are abstracted as an `Oracle`.  The model
state `σ` evolves only through `optimizer.step()` (`stepv`). -/

/-- Abstract interface to the out-of-scope collaborators: the CNN forward
pass with `argmax` (`score`), the loss `criterion` (`lossv`), the combined
effect of `backward` plus `optimizer.step()` on the weights (`stepv`),
`sklearn.metrics.f1_score(y_true, y_pred, average='weighted')` (`f1`) and
the forward pass over the validation matrix in `eval` mode (`valPred`). -/
structure Oracle (σ : Type) where
  score : σ → List (List Nat) → List Nat
  lossv : σ → List (List Nat) → List Nat → ℚ
  stepv : σ → List (List Nat) → List Nat → σ
  f1 : List Nat → List Nat → ℚ
  valPred : σ → List (List Nat) → List Nat

/-- Python truthiness of `args.clip_norm` in `if args.clip_norm:`
(train.py line 131): `None` and `0.0` are falsy. -/
def clipTruthy : Option ℚ → Bool
  | none => false
  | some c => c != 0

/-- What can be passed to `clip_grad_norm` as its parameters argument.
Line 132 passes `nlcnn_model.parameters` — the bound method itself, the
call parentheses are missing — not the parameter iterable
`nlcnn_model.parameters()`. -/
inductive ClipArg
  | boundMethod   -- `nlcnn_model.parameters`
  | paramIter     -- `nlcnn_model.parameters()`
  deriving DecidableEq

/-- Modelled from the documented interface of `torch.nn.utils.clip_grad_norm`
(an out-of-scope collaborator): it iterates over its parameters argument to
clip the total gradient norm.  Iterating a bound method raises `TypeError`,
so the call only proceeds when given the parameter iterable. -/
def clipGradNorm (arg : ClipArg) (max_norm : ℚ) : Except PyErr Unit :=
  match arg, max_norm with
  | .boundMethod, _ => .error .typeError
  | .paramIter, _ => .ok ()

/-- The operations of one mini-batch body, in program order (train.py
lines 122-137). -/
inductive Ev
  | score      -- `score = nlcnn_model(x_var)` (line 123)
  | predAccum  -- `train_pred += ...; train_y += ...` (lines 124-126)
  | lossCalc   -- `loss = criterion(score, y_var)` (line 128)
  | zeroGrad   -- `optimizer.zero_grad()` (line 129)
  | backward   -- `loss.backward()` (line 130)
  | clipNorm   -- `nn.utils.clip_grad_norm(...)` (line 132)
  | display    -- `progbar.set_postfix(...)` (lines 133 / 135)
  | step       -- `optimizer.step()` (line 137)
  deriving DecidableEq, Repr

/-- The trace of one mini-batch body (train.py lines 122-137): the events
executed, in order, paired with the exception aborting the step, if any.
When `args.clip_norm` is truthy, line 132 calls `clip_grad_norm` on the
bound method `nlcnn_model.parameters`. -/
def batchTrace (clip_norm : Option ℚ) : List Ev × Option PyErr :=
  if clipTruthy clip_norm then
    match clipGradNorm .boundMethod (clip_norm.getD 0) with
    | .error e => ([.score, .predAccum, .lossCalc, .zeroGrad, .backward], some e)
    | .ok _ =>
      ([.score, .predAccum, .lossCalc, .zeroGrad, .backward, .clipNorm, .display, .step],
       none)
  else
    ([.score, .predAccum, .lossCalc, .zeroGrad, .backward, .display, .step], none)

/-- Prepend one batch's predictions, labels and loss to the result of the
remaining batches (the `+=` accumulation of lines 125-126 and the loss
list). -/
def consBatch {σ : Type} (pred y : List Nat) (l : ℚ) :
    Except PyErr (σ × List Nat × List Nat × List ℚ) →
      Except PyErr (σ × List Nat × List Nat × List ℚ)
  | .error e => .error e
  | .ok (sf, ps, ys, ls) => .ok (sf, pred ++ ps, y ++ ys, l :: ls)

/-- One pass over the mini-batches of an epoch (train.py lines 113-137).
Each batch `b` yields `x = b.map Prod.fst` and `y = b.map Prod.snd` (the
stacked tensors of the `DataLoader`); the body computes the forward pass,
accumulates predictions and labels, computes the loss, runs
`zero_grad`/`backward`, performs the line-132 clipping call when
`args.clip_norm` is truthy (which raises, see `clipGradNorm`), and steps the
optimizer.  Returns the final model state, `train_pred`, `train_y`, and the
per-batch losses. -/
def runBatches {σ : Type} (o : Oracle σ) (clip_norm : Option ℚ) :
    σ → List (List (List Nat × Nat)) → Except PyErr (σ × List Nat × List Nat × List ℚ)
  | s, [] => .ok (s, [], [], [])
  | s, b :: rest =>
    let x := b.map Prod.fst
    let y := b.map Prod.snd
    let pred := o.score s x
    let l := o.lossv s x y
    if clipTruthy clip_norm then
      match clipGradNorm .boundMethod (clip_norm.getD 0) with
      | .error e => .error e
      | .ok _ => consBatch pred y l (runBatches o clip_norm (o.stepv s x y) rest)
    else
      consBatch pred y l (runBatches o clip_norm (o.stepv s x y) rest)

/-- The loss of each mini-batch of an epoch, in order, over the evolving
model state (the successive values of the local `loss`). -/
def batchLosses {σ : Type} (o : Oracle σ) : σ → List (List (List Nat × Nat)) → List ℚ
  | _, [] => []
  | s, b :: rest =>
    o.lossv s (b.map Prod.fst) (b.map Prod.snd) ::
      batchLosses o (o.stepv s (b.map Prod.fst) (b.map Prod.snd)) rest

/-- One epoch body without the checkpointing (train.py lines 111-147): run
the batches, then record `loss.data...` — the `loss` local still holding the
final batch's loss (line 141; `NameError` if no batch ever ran), the
weighted train F1 on the accumulated `train_y`/`train_pred`, and the
weighted validation F1 of the updated model on the validation split. -/
def runEpoch {σ : Type} (o : Oracle σ) (clip_norm : Option ℚ)
    (val_mat : List (List Nat)) (val_label : List Nat) (s : σ)
    (bs : List (List (List Nat × Nat))) : Except PyErr (σ × ℚ × ℚ × ℚ) :=
  match runBatches o clip_norm s bs with
  | .error e => .error e
  | .ok (s', preds, ys, losses) =>
    match losses.getLast? with
    | none => .error .nameError
    | some l => .ok (s', l, o.f1 ys preds, o.f1 val_label (o.valPred s' val_mat))

/-- Zero-pad a numeral to four digits (the `{:04d}` format). -/
def zeroPad4 (n : Nat) : String :=
  let s := toString n
  String.mk (List.replicate (4 - s.length) '0') ++ s

/-- The checkpoint file name written after epoch `ep`, numbered `ep + 1`
(train.py line 157): `model-state-{:04d}.pkl`. -/
def checkpointName (n : Nat) : String :=
  "model-state-" ++ zeroPad4 n ++ ".pkl"

/-- The epoch loop (train.py lines 106-160), carried from epoch `ep` with
the accumulated `train_loss`, `train_f1`, `val_f1` and the epoch numbers of
the checkpoints written so far.  After each epoch, when a `save_dir` was
given and `(ep + 1) % args.save_every == 0 or ep == args.num_epochs - 1`,
the state is saved as `checkpointName (ep + 1)` (lines 153-158; Python would
raise `ZeroDivisionError` for `save_every = 0`, so only `save_every ≥ 1` is
modelled).  Returns the checkpoint numbers written and either the final
`(train_loss, train_f1, val_f1)` or the propagated exception. -/
def runEpochs {σ : Type} (o : Oracle σ) (clip_norm : Option ℚ)
    (val_mat : List (List Nat)) (val_label : List Nat)
    (mkBatches : Nat → List (List (List Nat × Nat))) (save_dir : Bool)
    (save_every num_epochs : Nat) :
    Nat → σ → List ℚ → List ℚ → List ℚ → List Nat →
      List Nat × Except PyErr (List ℚ × List ℚ × List ℚ)
  | ep, s, train_loss, train_f1, val_f1, saved =>
    if _h : ep < num_epochs then
      match runEpoch o clip_norm val_mat val_label s (mkBatches ep) with
      | .error e => (saved, .error e)
      | .ok (s', l, tf, vf) =>
        runEpochs o clip_norm val_mat val_label mkBatches save_dir save_every num_epochs
          (ep + 1) s' (train_loss ++ [l]) (train_f1 ++ [tf]) (val_f1 ++ [vf])
          (if save_dir = true ∧ ((ep + 1) % save_every = 0 ∨ ep = num_epochs - 1)
           then saved ++ [ep + 1] else saved)
    else (saved, .ok (train_loss, train_f1, val_f1))
  termination_by ep => num_epochs - ep

/-- The mini-batches drawn by `DataLoader(..., batch_size=args.batch_size,
shuffle=True)` (train.py line 98) from an already shuffled list of samples:
consecutive chunks of `batch_size`, the last possibly shorter (`drop_last`
defaults to `False`).  `DataLoader` rejects `batch_size = 0`; only
`batch_size ≥ 1` is meaningful. -/
def toBatches {γ : Type} : Nat → List γ → List (List γ)
  | _, [] => []
  | 0, _ :: _ => []
  | k + 1, x :: xs => (x :: xs).take (k + 1) :: toBatches (k + 1) (xs.drop k)
  termination_by _ xs => xs.length
  decreasing_by simp; omega

/-- Apply a shuffle, given as the list of source indices in their new order
— how both `train_test_split(..., shuffle=True)` and
`DataLoader(shuffle=True)` reorder the data before splitting or batching. -/
def applyPerm {γ : Type} (perm : List Nat) (xs : List γ) : List γ :=
  perm.filterMap (fun i => xs[i]?)

/-- Modelled from the documented interface of
`sklearn.model_selection.train_test_split` (an out-of-scope collaborator):
for a float `test_size`, the test split receives `ceil(test_size * n)` of
the `n` samples. -/
def nTest (val_split : ℚ) (n : Nat) : Nat := (Int.toNat ⌈val_split * (n : ℚ)⌉)

/-- Modelled from the documented interface of
`sklearn.model_selection.train_test_split(X, y, test_size)` (an out-of-scope
collaborator): one shuffle permutation reorders `X` and `y` together, the
first `nTest` shuffled rows form the test (here: validation) split and the
remaining rows the train split; returned as
`(X_train, X_test, y_train, y_test)` — which train.py line 69 unpacks as
`(train_mat, val_mat, train_label, val_label)`. -/
def train_test_split {γ δ : Type} (perm : List Nat) (val_split : ℚ)
    (mat : List γ) (lab : List δ) : List γ × List γ × List δ × List δ :=
  let k := nTest val_split mat.length
  let mat' := applyPerm perm mat
  let lab' := applyPerm perm lab
  (mat'.drop k, mat'.take k, lab'.drop k, lab'.take k)

/-- The on-disk inputs that `train` loads (train.py lines 54, 23, 37): the
pickled `(feature_dict, feature_rev_dict)` pair (only `len(feature_dict)` —
`n_features` — is used), the `L1` column of the label CSV, and the contents
of each file of the train directory.  Each read may fail. -/
structure TrainInputs (α : Type) where
  dict_pkl : Except PyErr (List (Nat × Nat) × List (Nat × Nat))
  csv_l1 : Except PyErr (List α)
  train_files : List (Except PyErr (List (List Nat)))

/-- Sequence the per-file reads of the `read_data` loop: the first failing
`open(...)` raises out of the loop. -/
def readAll {γ : Type} : List (Except PyErr γ) → Except PyErr (List γ)
  | [] => .ok []
  | e :: es =>
    match e with
    | .error err => .error err
    | .ok v =>
      match readAll es with
      | .error err => .error err
      | .ok vs => .ok (v :: vs)

/-- The command-line arguments that the modelled part of `train` reads. -/
structure Args where
  clip_norm : Option ℚ
  num_epochs : Nat
  batch_size : Nat
  val_split : ℚ
  max_length : Nat
  save_every : Nat

/-- The `train` function (train.py lines 53-160): unpickle the feature
dictionaries, read the training data (`read_data`), split it with
`train_test_split`, build the shuffled `DataLoader` batches, and run the
epoch loop.  The external nondeterminism enters as parameters: `o` the
oracle for the out-of-scope collaborators, `s0` the freshly constructed
`NativeLanguageCNN` state, `split_perm` the shuffle inside
`train_test_split`, `shuffles ep` the `DataLoader` shuffle of epoch `ep`.
Returns the checkpoint numbers written and either
`(train_loss, train_f1, val_f1)` or the propagated exception. -/
def trainRun {σ α : Type} [LinearOrder α] (o : Oracle σ) (s0 : σ) (args : Args)
    (save_dir : Bool) (split_perm : List Nat) (shuffles : Nat → List Nat)
    (inp : TrainInputs α) : List Nat × Except PyErr (List ℚ × List ℚ × List ℚ) :=
  match inp.dict_pkl with
  | .error e => ([], .error e)
  | .ok fd =>
    match inp.csv_l1 with
    | .error e => ([], .error e)
    | .ok lang =>
      match readAll inp.train_files with
      | .error e => ([], .error e)
      | .ok files =>
        match read_data files lang args.max_length fd.1.length with
        | none => ([], .error .indexError)
        | some (mat, lab, _) =>
          let split := train_test_split split_perm args.val_split mat lab
          let train_mat := split.1
          let val_mat := split.2.1
          let train_label := split.2.2.1
          let val_label := split.2.2.2
          let pairs := train_mat.zip train_label
          runEpochs o args.clip_norm val_mat val_label
            (fun ep => toBatches args.batch_size (applyPerm (shuffles ep) pairs))
            save_dir args.save_every args.num_epochs 0 s0 [] [] [] []

/-- A trivial oracle over state `Unit`, for concrete instantiations. -/
def unitOracle : Oracle Unit where
  score := fun _ _ => []
  lossv := fun _ _ _ => 0
  stepv := fun _ _ _ => ()
  f1 := fun _ _ => 0
  valPred := fun _ _ => []

/-- Three concrete training pairs (empty token rows with labels `5, 6, 7`),
for concrete instantiations. -/
def witnessPairs : List (List Nat × Nat) := [([], 5), ([], 6), ([], 7)]

/-- A concrete oracle over state `ℚ`, for concrete instantiations: the loss
of a batch is the current state and each optimizer step increments it, so
successive batches have distinct losses. -/
def stepOracle : Oracle ℚ where
  score := fun _ _ => []
  lossv := fun s _ _ => s
  stepv := fun s _ _ => s + 1
  f1 := fun _ _ => 0
  valPred := fun _ _ => []

/-! ## Theorems -/

/-- The samples list is the padded rows of the concatenated lines, in order. -/
theorem samples_eq_map_join (max_length vocab_size : Nat)
    (fs : List (List (List Nat))) :
    samples max_length vocab_size fs = fs.flatten.map (padLine max_length vocab_size) := by
  induction fs with
  | nil => rfl
  | cons f fs ih => simp [samples, List.flatten, ih]

/-- Every padded row has exactly `max_length` entries. -/
theorem padLine_length (max_length vocab_size : Nat) (tokens : List Nat) :
    (padLine max_length vocab_size tokens).length = max_length := by
  simp [padLine]
  omega

/-- C1: for every call to `read_data` with `line=True`, row `i` of the
returned matrix comes from line `i` of the concatenated files and equals the
first `min(len(tokens), max_length)` token values followed by
`max_length - len(tokens)` copies of the padding index `vocab_size`; every
row has exactly `max_length` entries. -/
theorem read_data_row_padding {α : Type} [LinearOrder α]
    (file_dir : List (List (List Nat))) (label_file : List α)
    (max_length vocab_size : Nat) (mat : List (List Nat)) (lab : List Nat) (ld : List α)
    (hread : read_data file_dir label_file max_length vocab_size = some (mat, lab, ld)) :
    mat.length = file_dir.flatten.length ∧
    ∀ i, i < mat.length →
      ∃ tokens, file_dir.flatten[i]? = some tokens ∧
        mat[i]? = some (tokens.take max_length ++
          List.replicate (max_length - tokens.length) vocab_size) ∧
        (tokens.take max_length).length = min tokens.length max_length ∧
        (tokens.take max_length ++
          List.replicate (max_length - tokens.length) vocab_size).length = max_length := by
  have hmat : mat = samples max_length vocab_size file_dir := by
    unfold read_data at hread
    cases h : label_line (label label_file) 0 file_dir with
    | none => rw [h] at hread; simp [Option.map] at hread
    | some l => rw [h] at hread; simp [Option.map] at hread; exact hread.1.symm
  subst hmat
  rw [samples_eq_map_join]
  constructor
  · exact List.length_map _ _
  · intro i hi
    simp only [List.length_map] at hi
    refine ⟨file_dir.flatten[i], ?_, ?_, ?_, ?_⟩
    · exact List.getElem?_eq_getElem hi
    · rw [List.getElem?_map, List.getElem?_eq_getElem hi]
      rfl
    · simp [Nat.min_comm]
    · have := padLine_length max_length vocab_size file_dir.flatten[i]
      simpa [padLine] using this

/-- Witness for C1: a concrete two-line file, `max_length = 3`,
`vocab_size = 9`; the short line is padded with `9`, the long line is
truncated. -/
theorem read_data_row_padding_witness :
    (read_data [[[1, 2], [3, 4, 5, 6]]] [7] 3 9 =
      some ([[1, 2, 9], [3, 4, 5]], [0, 0], [7])) ∧
    ([[1, 2, 9], [3, 4, 5]] : List (List Nat)).length =
        ([[[1, 2], [3, 4, 5, 6]]] : List (List (List Nat))).flatten.length ∧
    ∀ i, i < ([[1, 2, 9], [3, 4, 5]] : List (List Nat)).length →
      ∃ tokens, ([[[1, 2], [3, 4, 5, 6]]] : List (List (List Nat))).flatten[i]? = some tokens ∧
        ([[1, 2, 9], [3, 4, 5]] : List (List Nat))[i]? = some (tokens.take 3 ++
          List.replicate (3 - tokens.length) 9) ∧
        (tokens.take 3).length = min tokens.length 3 ∧
        (tokens.take 3 ++ List.replicate (3 - tokens.length) 9).length = 3 :=
  ⟨by decide, read_data_row_padding [[[1, 2], [3, 4, 5, 6]]] [7] 3 9
    [[1, 2, 9], [3, 4, 5]] [0, 0] [7] (by decide)⟩

/-- `lang_list` has no duplicate entries. -/
theorem lang_list_nodup {α : Type} [LinearOrder α] (lang : List α) :
    (lang_list lang).Nodup :=
  ((List.perm_insertionSort _ _).nodup_iff).mpr (List.nodup_dedup lang)

/-- Membership in `lang_list` is membership in the CSV column. -/
theorem mem_lang_list {α : Type} [LinearOrder α] {lang : List α} {a : α} :
    a ∈ lang_list lang ↔ a ∈ lang := by
  rw [lang_list, (List.perm_insertionSort _ _).mem_iff, List.mem_dedup]

/-- C9: `lang_list` is the sorted list of the distinct `L1` values;
`lang_dict` and `lang_rev_dict` are mutually inverse (index to value and
value to index); decoding any numeric label through `lang_dict` recovers the
`L1` string of its CSV row. -/
theorem lang_dict_round_trip {α : Type} [LinearOrder α] (lang : List α) :
    (lang_list lang).Sorted (· < ·) ∧
    (∀ a : α, a ∈ lang_list lang ↔ a ∈ lang) ∧
    (∀ i, (hi : i < (lang_list lang).length) →
      lang_rev_dict lang ((lang_list lang)[i]) = i) ∧
    (∀ l ∈ lang_list lang, lang_dict lang (lang_rev_dict lang l) = some l) ∧
    (∀ j, (hj : j < lang.length) →
      lang_dict lang ((label lang).get ⟨j, by simpa [label] using hj⟩) = some lang[j]) := by
  have hinv : ∀ l ∈ lang_list lang, lang_dict lang (lang_rev_dict lang l) = some l := by
    intro l hl
    have := List.indexOf_get? (l := lang_list lang) hl
    rw [List.get?_eq_getElem?] at this
    exact this
  refine ⟨?_, fun a => mem_lang_list, ?_, hinv, ?_⟩
  · exact (List.sorted_insertionSort _ _).lt_of_le (lang_list_nodup lang)
  · intro i hi
    exact List.indexOf_getElem (lang_list_nodup lang) i hi
  · intro j hj
    have hm : lang[j] ∈ lang_list lang := mem_lang_list.mpr (lang.getElem_mem hj)
    have hlab : (label lang).get ⟨j, by simpa [label] using hj⟩ =
        lang_rev_dict lang lang[j] := by
      simp [label]
    rw [hlab]
    exact hinv _ hm

/-- Witness for C9: CSV column `[20, 10, 10]`; the sorted language list is
`[10, 20]`, the numeric labels are `[1, 0, 0]`, and decoding label `1` (row
`0`) recovers `20`. -/
theorem lang_dict_round_trip_witness :
    lang_dict [20, 10, 10] ((label ([20, 10, 10] : List Nat)).get ⟨0, by decide⟩) =
      some ((20 : Nat)) :=
  (lang_dict_round_trip ([20, 10, 10] : List Nat)).2.2.2.2 0 (by decide)

/-- Successful characterisation of `label_line`: starting at file index `i`,
if the remaining files fit inside `lab`, the produced labels are the
concatenation of one constant segment per file, the segment of file `k`
holding `len(lines_k)` copies of `lab[i + k]`. -/
theorem label_line_some (lab : List Nat) :
    ∀ (fs : List (List (List Nat))) (i : Nat), i + fs.length ≤ lab.length →
      ∃ segs : List (List Nat),
        label_line lab i fs = some segs.flatten ∧
        segs.length = fs.length ∧
        ∀ k, k < fs.length →
          ∃ f la, fs[k]? = some f ∧ lab[i + k]? = some la ∧
            segs[k]? = some (List.replicate f.length la) := by
  intro fs
  induction fs with
  | nil =>
    intro i _
    exact ⟨[], rfl, rfl, fun k hk => absurd hk (by simp)⟩
  | cons f fs ih =>
    intro i hi
    simp only [List.length_cons] at hi
    have hil : i < lab.length := by omega
    obtain ⟨segs, hsegs, hlen, hidx⟩ := ih (i + 1) (by omega)
    refine ⟨List.replicate f.length lab[i] :: segs, ?_, by simp [hlen], ?_⟩
    · have hlabi : lab[i]? = some lab[i] := List.getElem?_eq_getElem hil
      simp only [label_line, hlabi, hsegs]
      simp
    · intro k hk
      match k with
      | 0 =>
        exact ⟨f, lab[i], by simp, by simp [List.getElem?_eq_getElem hil], by simp⟩
      | k + 1 =>
        obtain ⟨f', la, hf', hla, hseg⟩ := hidx k (by simpa using hk)
        exact ⟨f', la, by simpa using hf',
          by simpa [Nat.add_assoc, Nat.add_comm 1 k] using hla, by simpa using hseg⟩

/-- Failure characterisation of `label_line`: if the files starting at index
`i` run past the end of `lab`, the Python loop hits `label[i]` out of range
and raises (`none`). -/
theorem label_line_none (lab : List Nat) :
    ∀ (fs : List (List (List Nat))) (i : Nat), 0 < fs.length →
      lab.length < i + fs.length → label_line lab i fs = none := by
  intro fs
  induction fs with
  | nil => intro i h0 _; simp at h0
  | cons f fs ih =>
    intro i _ hi
    simp only [List.length_cons] at hi
    by_cases hil : i < lab.length
    · have hlabi : lab[i]? = some lab[i] := List.getElem?_eq_getElem hil
      have hfs : 0 < fs.length := by omega
      simp only [label_line, hlabi, ih (i + 1) hfs (by omega)]
      rfl
    · have hnone : lab[i]? = none := List.getElem?_eq_none (by omega)
      simp only [label_line, hnone]

/-- C8: with `line=True`, the samples of the `i`-th listed file all receive
the numeric label of the `i`-th CSV row: the sample matrix and the label
list decompose into aligned per-file segments of equal length.  The
precondition that there are at most as many files as CSV rows is necessary:
without it `read_data` raises `IndexError` (`none`). -/
theorem read_data_labels_by_file {α : Type} [LinearOrder α]
    (file_dir : List (List (List Nat))) (label_file : List α)
    (max_length vocab_size : Nat) :
    (file_dir.length ≤ label_file.length →
      ∃ segs : List (List Nat),
        read_data file_dir label_file max_length vocab_size =
          some ((file_dir.map (fun f => f.map (padLine max_length vocab_size))).flatten,
                segs.flatten, lang_list label_file) ∧
        segs.length = file_dir.length ∧
        ∀ k, k < file_dir.length →
          ∃ f la, file_dir[k]? = some f ∧ (label label_file)[k]? = some la ∧
            segs[k]? = some (List.replicate f.length la) ∧
            (file_dir.map (fun f => f.map (padLine max_length vocab_size)))[k]? =
              some (f.map (padLine max_length vocab_size)) ∧
            (f.map (padLine max_length vocab_size)).length =
              (List.replicate f.length la).length) ∧
    (label_file.length < file_dir.length →
      read_data file_dir label_file max_length vocab_size = none) := by
  have hlablen : (label label_file).length = label_file.length := by simp [label]
  have hsamples : samples max_length vocab_size file_dir =
      (file_dir.map (fun f => f.map (padLine max_length vocab_size))).flatten := by
    induction file_dir with
    | nil => rfl
    | cons f fs ih => simp [samples, ih]
  constructor
  · intro hle
    obtain ⟨segs, hsegs, hlen, hidx⟩ :=
      label_line_some (label label_file) file_dir 0 (by omega)
    refine ⟨segs, ?_, hlen, ?_⟩
    · rw [read_data, hsegs]
      show some (samples max_length vocab_size file_dir, segs.flatten,
        lang_list label_file) = _
      rw [hsamples]
    · intro k hk
      obtain ⟨f, la, hf, hla, hseg⟩ := hidx k hk
      refine ⟨f, la, hf, by simpa using hla, hseg, ?_, ?_⟩
      · rw [List.getElem?_map, hf]; rfl
      · simp
  · intro hgt
    rw [read_data, label_line_none (label label_file) file_dir 0 (by omega) (by omega)]
    rfl

/-- Witness for C8: two files (one and two lines) and a two-row CSV; the
first file's single sample gets label `0`, the second file's two samples get
label `1`. -/
theorem read_data_labels_by_file_witness :
    ∃ segs : List (List Nat),
      read_data [[[1]], [[2], [3]]] [10, 20] 2 5 =
        some ((([[[1]], [[2], [3]]] : List (List (List Nat))).map
                (fun f => f.map (padLine 2 5))).flatten,
              segs.flatten, lang_list [10, 20]) ∧
      segs.length = ([[[1]], [[2], [3]]] : List (List (List Nat))).length ∧
      ∀ k, k < ([[[1]], [[2], [3]]] : List (List (List Nat))).length →
        ∃ f la, ([[[1]], [[2], [3]]] : List (List (List Nat)))[k]? = some f ∧
          (label ([10, 20] : List Nat))[k]? = some la ∧
          segs[k]? = some (List.replicate f.length la) ∧
          (([[[1]], [[2], [3]]] : List (List (List Nat))).map
            (fun f => f.map (padLine 2 5)))[k]? = some (f.map (padLine 2 5)) ∧
          (f.map (padLine 2 5)).length = (List.replicate f.length la).length :=
  (read_data_labels_by_file [[[1]], [[2], [3]]] ([10, 20] : List Nat) 2 5).1 (by decide)

/-! ## Helper lemmas -/

/-- Reading a directory whose file reads all succeed yields their contents. -/
theorem readAll_map_ok {γ : Type} (files : List γ) :
    readAll (files.map Except.ok) = .ok files := by
  induction files with
  | nil => rfl
  | cons f fs ih => simp [readAll, ih]

/-- If any file read fails, the sequenced read fails. -/
theorem readAll_error {γ : Type} :
    ∀ (es : List (Except PyErr γ)), (∃ e, Except.error e ∈ es) →
      ∃ e, readAll es = .error e := by
  intro es
  induction es with
  | nil => rintro ⟨e, he⟩; simp at he
  | cons x xs ih =>
    rintro ⟨e, he⟩
    match x with
    | .error e' => exact ⟨e', rfl⟩
    | .ok v =>
      have hmem : ∃ e, Except.error e ∈ xs := by
        rcases List.mem_cons.mp he with h | h
        · cases h
        · exact ⟨e, h⟩
      obtain ⟨e'', he''⟩ := ih hmem
      exact ⟨e'', by simp [readAll, he'']⟩

/-- Selecting every index of a list in order returns the list. -/
theorem filterMap_getElem_range {γ : Type} :
    ∀ (xs : List γ), (List.range xs.length).filterMap (fun i => xs[i]?) = xs := by
  intro xs
  induction xs with
  | nil => rfl
  | cons x xs ih =>
    rw [List.length_cons, List.range_succ_eq_map, List.filterMap_cons]
    simp only [List.getElem?_cons_zero, List.filterMap_map]
    have hfun : ((fun i => (x :: xs)[i]?) ∘ Nat.succ) = fun i => xs[i]? := by
      funext i
      simp
    rw [hfun, ih]

/-- Applying a permutation of the index range permutes the list. -/
theorem applyPerm_perm {γ : Type} {perm : List Nat} (xs : List γ)
    (h : perm.Perm (List.range xs.length)) : (applyPerm perm xs).Perm xs := by
  have := h.filterMap (fun i => xs[i]?)
  rwa [filterMap_getElem_range] at this

/-- A permutation of the index range preserves the length. -/
theorem applyPerm_length {γ : Type} {perm : List Nat} (xs : List γ)
    (h : perm.Perm (List.range xs.length)) : (applyPerm perm xs).length = xs.length :=
  (applyPerm_perm xs h).length_eq

/-- Shuffling two equally long lists with one permutation commutes with
pairing them up. -/
theorem applyPerm_zip {γ δ : Type} (xs : List γ) (ys : List δ)
    (hlen : ys.length = xs.length) :
    ∀ perm : List Nat, (applyPerm perm xs).zip (applyPerm perm ys) =
      applyPerm perm (xs.zip ys) := by
  intro perm
  induction perm with
  | nil => rfl
  | cons i rest ih =>
    by_cases hi : i < xs.length
    · have hiy : i < ys.length := by omega
      have hx : xs[i]? = some xs[i] := List.getElem?_eq_getElem hi
      have hy : ys[i]? = some ys[i] := List.getElem?_eq_getElem hiy
      have hxy : (xs.zip ys)[i]? = some (xs[i], ys[i]) := by
        rw [List.getElem?_zip_eq_some]
        exact ⟨hx, hy⟩
      simp only [applyPerm, List.filterMap_cons, hx, hy, hxy] at ih ⊢
      rw [List.zip_cons_cons]
      exact congrArg _ ih
    · have hx : xs[i]? = none := List.getElem?_eq_none (by omega)
      have hy : ys[i]? = none := List.getElem?_eq_none (by omega)
      have hxy : (xs.zip ys)[i]? = none := by
        apply List.getElem?_eq_none
        rw [List.length_zip]
        omega
      simp only [applyPerm, List.filterMap_cons, hx, hy, hxy] at ih ⊢
      exact ih

/-- Taking the same prefix length of two lists commutes with pairing. -/
theorem zip_take_take {γ δ : Type} :
    ∀ (xs : List γ) (ys : List δ) (k : Nat),
      (xs.take k).zip (ys.take k) = (xs.zip ys).take k
  | [], _, _ => by simp
  | _ :: _, [], _ => by simp
  | _ :: _, _ :: _, 0 => rfl
  | x :: xs, y :: ys, k + 1 => by
    simp only [List.take_succ_cons, List.zip_cons_cons]
    rw [zip_take_take xs ys k]

/-- Dropping the same prefix length of two lists commutes with pairing. -/
theorem zip_drop_drop {γ δ : Type} :
    ∀ (xs : List γ) (ys : List δ) (k : Nat),
      (xs.drop k).zip (ys.drop k) = (xs.zip ys).drop k
  | [], _, _ => by simp
  | _ :: _, [], _ => by simp
  | _ :: _, _ :: _, 0 => rfl
  | x :: xs, y :: ys, k + 1 => by
    simp only [List.drop_succ_cons, List.zip_cons_cons, List.drop]
    exact zip_drop_drop xs ys k

/-- Characterisation of `train_test_split`: validation pairs and train pairs
together permute the original (sample, label) pairs, and the split sizes are
`min (nTest ...) n` and `n - nTest ...`. -/
theorem train_test_split_spec {γ δ : Type} (perm : List Nat) (vs : ℚ)
    (mat : List γ) (lab : List δ) (hlen : lab.length = mat.length)
    (hperm : perm.Perm (List.range mat.length)) :
    ((train_test_split perm vs mat lab).2.1.zip (train_test_split perm vs mat lab).2.2.2 ++
      (train_test_split perm vs mat lab).1.zip (train_test_split perm vs mat lab).2.2.1).Perm
        (mat.zip lab) ∧
    (train_test_split perm vs mat lab).2.1.length = min (nTest vs mat.length) mat.length ∧
    (train_test_split perm vs mat lab).1.length = mat.length - nTest vs mat.length ∧
    (train_test_split perm vs mat lab).2.2.2.length = min (nTest vs mat.length) mat.length ∧
    (train_test_split perm vs mat lab).2.2.1.length = mat.length - nTest vs mat.length := by
  have hmat' : (applyPerm perm mat).length = mat.length := applyPerm_length mat hperm
  have hlab' : (applyPerm perm lab).length = lab.length :=
    applyPerm_length lab (by rwa [hlen])
  have hzip : (applyPerm perm mat).zip (applyPerm perm lab) =
      applyPerm perm (mat.zip lab) := applyPerm_zip mat lab hlen perm
  have hzperm : (applyPerm perm (mat.zip lab)).Perm (mat.zip lab) := by
    apply applyPerm_perm
    rwa [List.length_zip, hlen, Nat.min_self]
  refine ⟨?_, ?_, ?_, ?_, ?_⟩
  · show (((applyPerm perm mat).take _).zip ((applyPerm perm lab).take _) ++
      ((applyPerm perm mat).drop _).zip ((applyPerm perm lab).drop _)).Perm (mat.zip lab)
    rw [zip_take_take, zip_drop_drop, hzip, List.take_append_drop]
    exact hzperm
  · show ((applyPerm perm mat).take _).length = _
    rw [List.length_take, hmat']
  · show ((applyPerm perm mat).drop _).length = _
    rw [List.length_drop, hmat']
  · show ((applyPerm perm lab).take _).length = _
    rw [List.length_take, hlab', hlen]
  · show ((applyPerm perm lab).drop _).length = _
    rw [List.length_drop, hlab', hlen]

/-- The mini-batches concatenate back to the data they were drawn from. -/
theorem toBatches_flatten {γ : Type} :
    ∀ (k : Nat) (xs : List γ), (toBatches (k + 1) xs).flatten = xs
  | _, [] => by simp [toBatches]
  | k, x :: xs => by
    rw [toBatches, List.flatten_cons, toBatches_flatten k (xs.drop k)]
    rw [List.take_succ_cons]
    simp [List.take_append_drop]
  termination_by _ xs => xs.length
  decreasing_by simp; omega

/-- A nonempty data set yields at least one mini-batch. -/
theorem toBatches_ne_nil {γ : Type} (k : Nat) (x : γ) (xs : List γ) :
    toBatches (k + 1) (x :: xs) ≠ [] := by
  rw [toBatches]
  simp

/-- Every mini-batch is nonempty and no longer than `batch_size`. -/
theorem toBatches_mem_length {γ : Type} :
    ∀ (k : Nat) (xs : List γ), ∀ b ∈ toBatches (k + 1) xs,
      b ≠ [] ∧ b.length ≤ k + 1
  | _, [] => by intro b hb; simp [toBatches] at hb
  | k, x :: xs => by
    intro b hb
    rw [toBatches] at hb
    rcases List.mem_cons.mp hb with h | h
    · subst h
      constructor
      · simp
      · exact List.length_take_le (k + 1) (x :: xs)
    · exact toBatches_mem_length k (xs.drop k) b h
  termination_by _ xs => xs.length
  decreasing_by simp; omega

/-- Every mini-batch except possibly the last has exactly `batch_size`
elements. -/
theorem toBatches_dropLast_length {γ : Type} :
    ∀ (k : Nat) (xs : List γ), ∀ b ∈ (toBatches (k + 1) xs).dropLast,
      b.length = k + 1
  | _, [] => by intro b hb; simp [toBatches] at hb
  | k, x :: xs => by
    intro b hb
    rw [toBatches] at hb
    by_cases hrest : toBatches (k + 1) (xs.drop k) = []
    · rw [hrest] at hb
      simp at hb
    · rw [List.dropLast_cons_of_ne_nil hrest] at hb
      rcases List.mem_cons.mp hb with h | h
      · subst h
        have hxs : k ≤ xs.length := by
          by_contra hlt
          have : xs.drop k = [] := List.drop_eq_nil_of_le (by omega)
          rw [this] at hrest
          exact hrest (by rw [toBatches])
        rw [List.length_take]
        simp only [List.length_cons]
        omega
      · exact toBatches_dropLast_length k (xs.drop k) b h
  termination_by _ xs => xs.length
  decreasing_by simp; omega

/-- With a falsy `clip_norm` the batch loop never raises: it returns the
labels of the batches in order (`train_y`) and the per-batch losses. -/
theorem runBatches_spec {σ : Type} (o : Oracle σ) (clip : Option ℚ)
    (hclip : clipTruthy clip = false) :
    ∀ (bs : List (List (List Nat × Nat))) (s : σ), ∃ s' ps,
      runBatches o clip s bs =
        .ok (s', ps, bs.flatten.map Prod.snd, batchLosses o s bs) ∧
      (batchLosses o s bs).length = bs.length := by
  intro bs
  induction bs with
  | nil => intro s; exact ⟨s, [], rfl, rfl⟩
  | cons b rest ih =>
    intro s
    obtain ⟨s', ps, hrun, hlen⟩ := ih (o.stepv s (b.map Prod.fst) (b.map Prod.snd))
    refine ⟨s', o.score s (b.map Prod.fst) ++ ps, ?_, by simp [batchLosses, hlen]⟩
    rw [runBatches]
    simp only [hclip, Bool.false_eq_true, if_false, hrun, consBatch, batchLosses]
    simp

/-- With a falsy `clip_norm` and at least one batch, an epoch succeeds and
records the loss of its final mini-batch. -/
theorem runEpoch_ok {σ : Type} (o : Oracle σ) (clip : Option ℚ)
    (hclip : clipTruthy clip = false) (vm : List (List Nat)) (vl : List Nat)
    (s : σ) (bs : List (List (List Nat × Nat))) (hbs : bs ≠ []) :
    ∃ s' l tf vf, runEpoch o clip vm vl s bs = .ok (s', l, tf, vf) ∧
      (batchLosses o s bs).getLast? = some l := by
  obtain ⟨s', ps, hrun, hlen⟩ := runBatches_spec o clip hclip bs s
  have hne : batchLosses o s bs ≠ [] := by
    intro hnil
    rw [hnil] at hlen
    exact hbs (List.eq_nil_of_length_eq_zero hlen.symm)
  obtain ⟨l, hl⟩ := Option.isSome_iff_exists.mp (List.getLast?_isSome.mpr hne)
  refine ⟨s', l, o.f1 (bs.flatten.map Prod.snd) ps,
    o.f1 vl (o.valPred s' vm), ?_, hl⟩
  simp [runEpoch, hrun, hl]

/-- Characterisation of the epoch loop when every remaining epoch has at
least one batch and `clip_norm` is falsy: it runs the `k = num_epochs - ep`
remaining epochs, appends one loss / train-F1 / val-F1 value per epoch, and
appends checkpoint number `e + 1` exactly for the epochs `e` satisfying the
saving condition. -/
theorem runEpochs_ok {σ : Type} (o : Oracle σ) (clip : Option ℚ)
    (hclip : clipTruthy clip = false) (vm : List (List Nat)) (vl : List Nat)
    (mkB : Nat → List (List (List Nat × Nat))) (sd : Bool) (se ne : Nat) :
    ∀ (k ep : Nat), ep + k = ne → (∀ e, ep ≤ e → e < ne → mkB e ≠ []) →
      ∀ (s : σ) (tl tf vf : List ℚ) (saved : List Nat),
        ∃ ls fs vs,
          runEpochs o clip vm vl mkB sd se ne ep s tl tf vf saved =
            (saved ++ (List.range' ep k).filterMap (fun e =>
              if sd = true ∧ ((e + 1) % se = 0 ∨ e = ne - 1) then some (e + 1) else none),
             .ok (tl ++ ls, tf ++ fs, vf ++ vs)) ∧
          ls.length = k ∧ fs.length = k ∧ vs.length = k := by
  intro k
  induction k with
  | zero =>
    intro ep hep _ s tl tf vf saved
    refine ⟨[], [], [], ?_, rfl, rfl, rfl⟩
    rw [runEpochs, dif_neg (by omega)]
    simp
  | succ k ih =>
    intro ep hep hb s tl tf vf saved
    have hlt : ep < ne := by omega
    obtain ⟨s', l, tfv, vfv, hepoch, _⟩ :=
      runEpoch_ok o clip hclip vm vl s (mkB ep) (hb ep le_rfl hlt)
    obtain ⟨ls, fs, vs, hrec, hls, hfs, hvs⟩ :=
      ih (ep + 1) (by omega) (fun e he1 he2 => hb e (by omega) he2)
        s' (tl ++ [l]) (tf ++ [tfv]) (vf ++ [vfv])
        (if sd = true ∧ ((ep + 1) % se = 0 ∨ ep = ne - 1) then saved ++ [ep + 1] else saved)
    refine ⟨l :: ls, tfv :: fs, vfv :: vs, ?_, by simp [hls], by simp [hfs], by simp [hvs]⟩
    rw [runEpochs, dif_pos hlt]
    simp only [hepoch]
    rw [hrec, List.range'_succ, List.filterMap_cons]
    by_cases hc : sd = true ∧ ((ep + 1) % se = 0 ∨ ep = ne - 1)
    · simp only [if_pos hc]
      simp
    · simp only [if_neg hc]
      simp

/-- The label list produced by `label_line` has one entry per line. -/
theorem label_line_length (lab : List Nat) :
    ∀ (fs : List (List (List Nat))) (i : Nat) (L : List Nat),
      label_line lab i fs = some L → L.length = fs.flatten.length := by
  intro fs
  induction fs with
  | nil =>
    intro i L h
    rw [label_line] at h
    cases h
    rfl
  | cons f fs ih =>
    intro i L h
    rw [label_line] at h
    match hx : lab[i]? with
    | none => rw [hx] at h; cases h
    | some la =>
      rw [hx] at h
      match hr : label_line lab (i + 1) fs with
      | none => rw [hr] at h; cases h
      | some rest =>
        rw [hr] at h
        simp only [Option.map_some] at h
        cases h
        simp [ih (i + 1) rest hr]

/-- Characterisation of a full successful `train` call: all inputs load,
there are at most as many train files as CSV rows, `clip_norm` is falsy
(else line 132 raises), `batch_size ≥ 1`, the shuffles are permutations, and
the validation split leaves at least one training sample.  Then `train`
writes exactly the scheduled checkpoints and returns one loss / train-F1 /
val-F1 value per epoch. -/
theorem trainRun_ok {σ α : Type} [LinearOrder α] (o : Oracle σ) (s0 : σ)
    (args : Args) (sd : Bool) (split_perm : List Nat) (shuffles : Nat → List Nat)
    (fd : List (Nat × Nat) × List (Nat × Nat)) (lang : List α)
    (files : List (List (List Nat)))
    (hfiles : files.length ≤ lang.length)
    (hclip : clipTruthy args.clip_norm = false)
    (hbatch : 1 ≤ args.batch_size)
    (hsp : split_perm.Perm (List.range files.flatten.length))
    (hk : nTest args.val_split files.flatten.length < files.flatten.length)
    (hsh : ∀ ep, (shuffles ep).Perm (List.range
      (files.flatten.length - nTest args.val_split files.flatten.length))) :
    ∃ tl tf vf,
      trainRun o s0 args sd split_perm shuffles
          ⟨.ok fd, .ok lang, files.map Except.ok⟩ =
        ((List.range' 0 args.num_epochs).filterMap (fun e =>
           if sd = true ∧ ((e + 1) % args.save_every = 0 ∨ e = args.num_epochs - 1)
           then some (e + 1) else none),
         .ok (tl, tf, vf)) ∧
      tl.length = args.num_epochs ∧ tf.length = args.num_epochs ∧
      vf.length = args.num_epochs := by
  obtain ⟨segs, hsegs, _, _⟩ :=
    label_line_some (label lang) files 0 (by simpa [label] using hfiles)
  have hread : read_data files lang args.max_length fd.1.length =
      some (samples args.max_length fd.1.length files, segs.flatten, lang_list lang) := by
    rw [read_data, hsegs]
    rfl
  set mat := samples args.max_length fd.1.length files with hmat
  set lab := segs.flatten with hlab
  have hmat_len : mat.length = files.flatten.length := by
    rw [hmat, samples_eq_map_join, List.length_map]
  have hlab_len : lab.length = mat.length := by
    rw [hmat_len]
    exact label_line_length (label lang) files 0 lab hsegs
  set n := files.flatten.length with hn
  set k := nTest args.val_split files.flatten.length with hkdef
  obtain ⟨_, _, htm, _, htl⟩ :=
    train_test_split_spec split_perm args.val_split mat lab hlab_len
      (by rwa [hmat_len])
  set split := train_test_split split_perm args.val_split mat lab with hsplit
  have hkmat : nTest args.val_split mat.length = k := by rw [hmat_len]
  have hpairs_len : (split.1.zip split.2.2.1).length = n - k := by
    rw [List.length_zip, htm, htl, hkmat, hmat_len, Nat.min_self]
  have hne_pairs : split.1.zip split.2.2.1 ≠ [] := by
    intro hnil
    rw [hnil] at hpairs_len
    simp at hpairs_len
    omega
  have hmkB : ∀ e, toBatches args.batch_size
      (applyPerm (shuffles e) (split.1.zip split.2.2.1)) ≠ [] := by
    intro e
    have hperm : (applyPerm (shuffles e) (split.1.zip split.2.2.1)).Perm
        (split.1.zip split.2.2.1) := by
      apply applyPerm_perm
      rw [hpairs_len]
      exact hsh e
    have hne' : applyPerm (shuffles e) (split.1.zip split.2.2.1) ≠ [] := by
      intro hnil
      have := hperm.length_eq
      rw [hnil, hpairs_len] at this
      simp at this
      omega
    obtain ⟨y, ys, hys⟩ := List.exists_cons_of_ne_nil hne'
    obtain ⟨m, hm⟩ := Nat.exists_eq_add_of_le hbatch
    rw [hys, hm, Nat.add_comm 1 m]
    exact toBatches_ne_nil m y ys
  obtain ⟨ls, fs, vs, hrun, hls, hfs, hvs⟩ :=
    runEpochs_ok o args.clip_norm hclip split.2.1 split.2.2.2
      (fun ep => toBatches args.batch_size
        (applyPerm (shuffles ep) (split.1.zip split.2.2.1)))
      sd args.save_every args.num_epochs args.num_epochs 0 (by omega)
      (fun e _ _ => hmkB e) s0 [] [] [] []
  refine ⟨ls, fs, vs, ?_, hls, hfs, hvs⟩
  show trainRun _ _ _ _ _ _ _ = _
  rw [trainRun]
  simp only [readAll_map_ok, hread]
  simpa using hrun

/-- C2: the mini-batch body computes the score and the loss, zeroes the
gradients, backpropagates, and — only because line 132 passes the bound
method `nlcnn_model.parameters` instead of calling it — when
`args.clip_norm` is set (truthy) the clipping call raises `TypeError`
before `optimizer.step()`; with `clip_norm` unset the step completes in the
claimed order. -/
theorem batch_step_order :
    batchTrace none =
      ([.score, .predAccum, .lossCalc, .zeroGrad, .backward, .display, .step], none) ∧
    ∀ c : ℚ, c ≠ 0 → batchTrace (some c) =
      ([.score, .predAccum, .lossCalc, .zeroGrad, .backward], some .typeError) := by
  constructor
  · rfl
  · intro c hc
    simp [batchTrace, clipTruthy, clipGradNorm, hc]

/-- Witness for C2: with `clip_norm = 5.0` the batch body raises `TypeError`
after `backward` and never reaches `optimizer.step()`. -/
theorem batch_step_order_witness :
    batchTrace (some 5) =
      ([.score, .predAccum, .lossCalc, .zeroGrad, .backward], some .typeError) :=
  batch_step_order.2 5 (by norm_num)

/-- C3: a successful `train` call with a `save_dir` and `num_epochs ≥ 1`
writes the checkpoint numbered `ep + 1` (file `checkpointName (ep + 1)`,
that is `model-state-%04d.pkl`) after epoch `ep` exactly when `ep + 1` is a
multiple of `args.save_every` or `ep` is the final epoch; in particular the
final epoch's checkpoint is always written. -/
theorem checkpoint_schedule {σ α : Type} [LinearOrder α] (o : Oracle σ) (s0 : σ)
    (args : Args) (split_perm : List Nat) (shuffles : Nat → List Nat)
    (fd : List (Nat × Nat) × List (Nat × Nat)) (lang : List α)
    (files : List (List (List Nat)))
    (hfiles : files.length ≤ lang.length)
    (hclip : clipTruthy args.clip_norm = false)
    (hbatch : 1 ≤ args.batch_size)
    (hsp : split_perm.Perm (List.range files.flatten.length))
    (hk : nTest args.val_split files.flatten.length < files.flatten.length)
    (hsh : ∀ ep, (shuffles ep).Perm (List.range
      (files.flatten.length - nTest args.val_split files.flatten.length)))
    (_hse : 1 ≤ args.save_every) (hne : 1 ≤ args.num_epochs) :
    ∃ saved tl tf vf,
      trainRun o s0 args true split_perm shuffles
          ⟨.ok fd, .ok lang, files.map Except.ok⟩ =
        (saved, .ok (tl, tf, vf)) ∧
      (∀ ep, ep < args.num_epochs →
        ((ep + 1) ∈ saved ↔
          (args.save_every ∣ (ep + 1) ∨ ep = args.num_epochs - 1))) ∧
      args.num_epochs ∈ saved := by
  obtain ⟨tl, tf, vf, hrun, _, _, _⟩ :=
    trainRun_ok o s0 args true split_perm shuffles fd lang files
      hfiles hclip hbatch hsp hk hsh
  refine ⟨_, tl, tf, vf, hrun, ?_, ?_⟩
  · intro ep hep
    rw [List.mem_filterMap]
    constructor
    · rintro ⟨e, hmem, hpick⟩
      by_cases hc : True ∧ ((e + 1) % args.save_every = 0 ∨ e = args.num_epochs - 1)
      · rw [if_pos (by simpa using hc)] at hpick
        have he : e = ep := by
          have := Option.some.inj hpick
          omega
        subst he
        rcases hc.2 with h | h
        · exact Or.inl (Nat.dvd_iff_mod_eq_zero.mpr h)
        · exact Or.inr h
      · rw [if_neg (by simpa using hc)] at hpick
        cases hpick
    · intro hcond
      refine ⟨ep, ?_, ?_⟩
      · rw [List.mem_range']
        exact ⟨ep, hep, by omega⟩
      · rw [if_pos]
        refine ⟨rfl, ?_⟩
        rcases hcond with h | h
        · exact Or.inl (Nat.dvd_iff_mod_eq_zero.mp h)
        · exact Or.inr h
  · rw [List.mem_filterMap]
    refine ⟨args.num_epochs - 1, ?_, ?_⟩
    · rw [List.mem_range']
      exact ⟨args.num_epochs - 1, by omega, by omega⟩
    · rw [if_pos ⟨rfl, Or.inr rfl⟩]
      congr 1
      omega

/-- C4: a successful `train` call runs the epoch loop exactly `num_epochs`
times and returns three lists — `train_loss`, `train_f1`, `val_f1` — each
of length exactly `num_epochs`, one value appended per epoch. -/
theorem train_metrics_per_epoch {σ α : Type} [LinearOrder α] (o : Oracle σ)
    (s0 : σ) (args : Args) (sd : Bool) (split_perm : List Nat)
    (shuffles : Nat → List Nat) (fd : List (Nat × Nat) × List (Nat × Nat))
    (lang : List α) (files : List (List (List Nat)))
    (hfiles : files.length ≤ lang.length)
    (hclip : clipTruthy args.clip_norm = false)
    (hbatch : 1 ≤ args.batch_size)
    (hsp : split_perm.Perm (List.range files.flatten.length))
    (hk : nTest args.val_split files.flatten.length < files.flatten.length)
    (hsh : ∀ ep, (shuffles ep).Perm (List.range
      (files.flatten.length - nTest args.val_split files.flatten.length))) :
    ∃ saved tl tf vf,
      trainRun o s0 args sd split_perm shuffles
          ⟨.ok fd, .ok lang, files.map Except.ok⟩ =
        (saved, .ok (tl, tf, vf)) ∧
      tl.length = args.num_epochs ∧ tf.length = args.num_epochs ∧
      vf.length = args.num_epochs := by
  obtain ⟨tl, tf, vf, hrun, h1, h2, h3⟩ :=
    trainRun_ok o s0 args sd split_perm shuffles fd lang files
      hfiles hclip hbatch hsp hk hsh
  exact ⟨_, tl, tf, vf, hrun, h1, h2, h3⟩

/-- C5: `train_test_split` partitions the data: the validation pairs and
train pairs together are a permutation of the original (sample, label)
pairs, each sample keeping its label; the validation set receives
`ceil(val_split * n)` samples — exactly the fraction `val_split` whenever
`val_split * n` is a whole number. -/
theorem split_partitions_data {γ δ : Type} (perm : List Nat) (vs : ℚ)
    (mat : List γ) (lab : List δ) (hlen : lab.length = mat.length)
    (hperm : perm.Perm (List.range mat.length))
    (hval : nTest vs mat.length ≤ mat.length) :
    ((train_test_split perm vs mat lab).2.1.zip (train_test_split perm vs mat lab).2.2.2 ++
      (train_test_split perm vs mat lab).1.zip
        (train_test_split perm vs mat lab).2.2.1).Perm (mat.zip lab) ∧
    (train_test_split perm vs mat lab).2.1.length = nTest vs mat.length ∧
    (train_test_split perm vs mat lab).2.2.2.length = nTest vs mat.length ∧
    (train_test_split perm vs mat lab).1.length = mat.length - nTest vs mat.length ∧
    (train_test_split perm vs mat lab).2.2.1.length = mat.length - nTest vs mat.length ∧
    (∀ m : Nat, vs * (mat.length : ℚ) = (m : ℚ) →
      (train_test_split perm vs mat lab).2.1.length = m) := by
  obtain ⟨hp, h1, h2, h3, h4⟩ := train_test_split_spec perm vs mat lab hlen hperm
  have hmin : min (nTest vs mat.length) mat.length = nTest vs mat.length :=
    Nat.min_eq_left hval
  refine ⟨hp, by rw [h1, hmin], by rw [h3, hmin], h2, h4, ?_⟩
  intro m hm
  rw [h1, hmin, nTest, hm]
  simp

/-- C6: in each epoch the mini-batches partition the shuffled training set:
their concatenation is the shuffled data (a permutation of the training
pairs), every batch except possibly the last has exactly `batch_size`
elements, no batch exceeds `batch_size` or is empty, and the batch loop
accumulates exactly one `train_y` entry per training sample. -/
theorem epoch_batches_partition {σ : Type} (o : Oracle σ) (s : σ) (bsz : Nat)
    (hbsz : 1 ≤ bsz) (pairs : List (List Nat × Nat)) (perm : List Nat)
    (hperm : perm.Perm (List.range pairs.length)) :
    (toBatches bsz (applyPerm perm pairs)).flatten = applyPerm perm pairs ∧
    (applyPerm perm pairs).Perm pairs ∧
    (∀ b ∈ (toBatches bsz (applyPerm perm pairs)).dropLast, b.length = bsz) ∧
    (∀ b ∈ toBatches bsz (applyPerm perm pairs), b ≠ [] ∧ b.length ≤ bsz) ∧
    (∃ s' ps, runBatches o none s (toBatches bsz (applyPerm perm pairs)) =
      .ok (s', ps, (toBatches bsz (applyPerm perm pairs)).flatten.map Prod.snd,
        batchLosses o s (toBatches bsz (applyPerm perm pairs))) ∧
      ((toBatches bsz (applyPerm perm pairs)).flatten.map Prod.snd).length =
        pairs.length ∧
      ((toBatches bsz (applyPerm perm pairs)).flatten.map Prod.snd).Perm
        (pairs.map Prod.snd)) := by
  obtain ⟨m, rfl⟩ : ∃ m, bsz = m + 1 := ⟨bsz - 1, by omega⟩
  have hshuffle : (applyPerm perm pairs).Perm pairs := applyPerm_perm pairs hperm
  have hflat : (toBatches (m + 1) (applyPerm perm pairs)).flatten =
      applyPerm perm pairs := toBatches_flatten m (applyPerm perm pairs)
  refine ⟨hflat, hshuffle, toBatches_dropLast_length m _,
    toBatches_mem_length m _, ?_⟩
  obtain ⟨s', ps, hrun, _⟩ := runBatches_spec o none rfl
    (toBatches (m + 1) (applyPerm perm pairs)) s
  refine ⟨s', ps, hrun, ?_, ?_⟩
  · rw [hflat, List.length_map, hshuffle.length_eq]
  · rw [hflat]
    exact hshuffle.map Prod.snd

/-- C7: `train` has no retry and no partial-failure recovery: if loading
the feature-dictionary pickle, the label CSV, or any file of the train
directory fails, the exception propagates out and no checkpoint is
written. -/
theorem train_no_partial_failure {σ α : Type} [LinearOrder α] (o : Oracle σ)
    (s0 : σ) (args : Args) (sd : Bool) (split_perm : List Nat)
    (shuffles : Nat → List Nat) (inp : TrainInputs α)
    (h : (∃ e, inp.dict_pkl = .error e) ∨ (∃ e, inp.csv_l1 = .error e) ∨
         (∃ e, Except.error e ∈ inp.train_files)) :
    ∃ e, trainRun o s0 args sd split_perm shuffles inp = ([], .error e) := by
  obtain ⟨dp, csv, tfl⟩ := inp
  match dp with
  | .error e => exact ⟨e, by rw [trainRun]⟩
  | .ok fd =>
    match csv with
    | .error e => exact ⟨e, by rw [trainRun]⟩
    | .ok lang =>
      have hmem : ∃ e, Except.error e ∈ tfl := by
        rcases h with ⟨e, he⟩ | ⟨e, he⟩ | hm
        · cases he
        · cases he
        · exact hm
      obtain ⟨e', he'⟩ := readAll_error tfl hmem
      exact ⟨e', by rw [trainRun, he']⟩

/-- Witness for C7: a failing pickle read makes `train` return the error
with no checkpoint written. -/
theorem train_no_partial_failure_witness :
    ∃ e, trainRun unitOracle () ⟨none, 1, 1, 0, 1, 1⟩ false [] (fun _ => [])
        (⟨.error .ioError, .ok [3], []⟩ : TrainInputs Nat) = ([], .error e) :=
  train_no_partial_failure unitOracle () ⟨none, 1, 1, 0, 1, 1⟩ false [] (fun _ => [])
    ⟨.error .ioError, .ok [3], []⟩ (Or.inl ⟨.ioError, rfl⟩)

/-- C10: the `train_loss` value an epoch records is the loss of that
epoch's final mini-batch (the `loss` local after the batch loop), not an
aggregate of the epoch's batch losses. -/
theorem epoch_records_last_batch_loss {σ : Type} (o : Oracle σ)
    (clip : Option ℚ) (vm : List (List Nat)) (vl : List Nat) (s : σ)
    (bs : List (List (List Nat × Nat)))
    (hclip : clipTruthy clip = false) (hbs : bs ≠ []) :
    ∃ s' tf vf l, runEpoch o clip vm vl s bs = .ok (s', l, tf, vf) ∧
      (batchLosses o s bs).getLast? = some l := by
  obtain ⟨s', l, tf, vf, hrun, hlast⟩ := runEpoch_ok o clip hclip vm vl s bs hbs
  exact ⟨s', tf, vf, l, hrun, hlast⟩

/-- Witness for C10: two batches with losses `1` then `2`; the epoch records
`2`, the final batch's loss — not the average `3/2`. -/
theorem epoch_records_last_batch_loss_witness :
    (∃ s' tf vf l,
      runEpoch stepOracle none [] [] 1 [[([], 0)], [([], 0)]] = .ok (s', l, tf, vf) ∧
      (batchLosses stepOracle 1 [[([], 0)], [([], 0)]]).getLast? = some l) ∧
    batchLosses stepOracle 1 [[([], 0)], [([], 0)]] = [1, 2] ∧
    ((1 : ℚ) + 2) / 2 ≠ 2 :=
  ⟨epoch_records_last_batch_loss stepOracle none [] [] 1 [[([], 0)], [([], 0)]]
      rfl (by simp),
   by norm_num [batchLosses, stepOracle],
   by norm_num⟩

/-- Witness for C3: one single-line train file, two epochs, `save_every = 2`:
epoch 0 writes nothing (`1 % 2 ≠ 0`, not final), epoch 1 writes checkpoint
`2` (both a multiple of `save_every` and the final epoch). -/
theorem checkpoint_schedule_witness :
    ∃ saved tl tf vf,
      trainRun unitOracle () ⟨none, 2, 1, 0, 1, 2⟩ true [0] (fun _ => [0])
          (⟨.ok ([], []), .ok [3], [[[1]]].map Except.ok⟩ : TrainInputs Nat) =
        (saved, .ok (tl, tf, vf)) ∧
      (∀ ep, ep < 2 → ((ep + 1) ∈ saved ↔ (2 ∣ (ep + 1) ∨ ep = 2 - 1))) ∧
      2 ∈ saved :=
  checkpoint_schedule unitOracle () ⟨none, 2, 1, 0, 1, 2⟩ [0] (fun _ => [0])
    ([], []) [3] [[[1]]] (by decide) rfl (by decide) (by decide)
    (by norm_num [nTest])
    (fun _ => by norm_num [nTest]; decide)
    (by decide) (by decide)

/-- Witness for C4: the same concrete run returns three metric lists of
length `2 = num_epochs`. -/
theorem train_metrics_per_epoch_witness :
    ∃ saved tl tf vf,
      trainRun unitOracle () ⟨none, 2, 1, 0, 1, 2⟩ false [0] (fun _ => [0])
          (⟨.ok ([], []), .ok [3], [[[1]]].map Except.ok⟩ : TrainInputs Nat) =
        (saved, .ok (tl, tf, vf)) ∧
      tl.length = 2 ∧ tf.length = 2 ∧ vf.length = 2 :=
  train_metrics_per_epoch unitOracle () ⟨none, 2, 1, 0, 1, 2⟩ false [0] (fun _ => [0])
    ([], []) [3] [[[1]]] (by decide) rfl (by decide) (by decide)
    (by norm_num [nTest])
    (fun _ => by norm_num [nTest]; decide)

/-- Witness for C5: three samples, `val_split = 1/3`: the validation split
takes exactly one pair, the train split two, and together they permute the
original pairs. -/
theorem split_partitions_data_witness :
    ((train_test_split [2, 0, 1] (1/3) [10, 20, 30] [5, 6, 7]).2.1.zip
        (train_test_split [2, 0, 1] (1/3) [10, 20, 30] [5, 6, 7]).2.2.2 ++
      (train_test_split [2, 0, 1] (1/3) [10, 20, 30] [5, 6, 7]).1.zip
        (train_test_split [2, 0, 1] (1/3) [10, 20, 30] [5, 6, 7]).2.2.1).Perm
          (([10, 20, 30] : List Nat).zip ([5, 6, 7] : List Nat)) ∧
    (train_test_split [2, 0, 1] (1/3) [10, 20, 30] [5, 6, 7]).2.1.length =
      nTest (1/3) 3 ∧
    (train_test_split [2, 0, 1] (1/3) [10, 20, 30] [5, 6, 7]).2.2.2.length =
      nTest (1/3) 3 ∧
    (train_test_split [2, 0, 1] (1/3) [10, 20, 30] [5, 6, 7]).1.length =
      3 - nTest (1/3) 3 ∧
    (train_test_split [2, 0, 1] (1/3) [10, 20, 30] [5, 6, 7]).2.2.1.length =
      3 - nTest (1/3) 3 ∧
    (∀ m : Nat, (1/3 : ℚ) * ((3 : Nat) : ℚ) = (m : ℚ) →
      (train_test_split [2, 0, 1] (1/3) [10, 20, 30] [5, 6, 7]).2.1.length = m) :=
  split_partitions_data [2, 0, 1] (1/3) [10, 20, 30] [5, 6, 7] (by decide)
    (by decide) (by norm_num [nTest])

/-- Witness for C6: three training pairs (`witnessPairs`), `batch_size = 2`,
shuffle `[2, 0, 1]`: two batches of sizes `2` and `1` partitioning the
shuffled data. -/
theorem epoch_batches_partition_witness :
    (toBatches 2 (applyPerm [2, 0, 1] witnessPairs)).flatten =
      applyPerm [2, 0, 1] witnessPairs ∧
    (applyPerm [2, 0, 1] witnessPairs).Perm witnessPairs ∧
    (∀ b ∈ (toBatches 2 (applyPerm [2, 0, 1] witnessPairs)).dropLast,
      b.length = 2) ∧
    (∀ b ∈ toBatches 2 (applyPerm [2, 0, 1] witnessPairs),
      b ≠ [] ∧ b.length ≤ 2) ∧
    (∃ s' ps, runBatches unitOracle none ()
        (toBatches 2 (applyPerm [2, 0, 1] witnessPairs)) =
      .ok (s', ps,
        (toBatches 2 (applyPerm [2, 0, 1] witnessPairs)).flatten.map Prod.snd,
        batchLosses unitOracle () (toBatches 2 (applyPerm [2, 0, 1] witnessPairs))) ∧
      ((toBatches 2 (applyPerm [2, 0, 1] witnessPairs)).flatten.map Prod.snd).length =
        witnessPairs.length ∧
      ((toBatches 2 (applyPerm [2, 0, 1] witnessPairs)).flatten.map Prod.snd).Perm
        (witnessPairs.map Prod.snd)) :=
  epoch_batches_partition unitOracle () 2 (by decide) witnessPairs [2, 0, 1]
    (by decide)

end NLCNN
